import Mathlib

set_option maxHeartbeats 1000000

/-!
Verification of the CUI inspector core, shallowly embedded in Lean 4.

Embedded components:
* the rule-based analysis engine (`src/analysis_engine.py`, `src/rulesets.py`,
  `src/utils.py`),
* the content-addressed evidence vault (`src/inspector.py`, `src/repo.py`,
  over the catalog schema of `src/db.py`),
* the tenant/access gate (`src/auth.py`, `src/tenants.py`).

Modelling conventions:
* Python byte strings are `List Nat` (byte values); the SHA-256 digest
  primitive (`hashlib.sha256(...).hexdigest()`) is an abstract parameter
  `hash : List Nat → String` — the development only relies on it being a
  function (deterministic), never on collision behaviour.
* Python's `re.finditer` match counting (the `re` standard library) is an
  abstract parameter `rc : String → String → Nat` taking the regex source and
  the text and returning the number of matches.
* Floating point scores are exact here: every weight in the defined rulesets
  is an integer literal, so the float score computed by the engine is an
  integer and `int(clamp(score, 0, 100))` equals clamping over `ℕ`.
* Wall-clock columns (`created_at`, `started_at`, ...) and the bounded text
  excerpts (`_snip`) are traceability metadata not referenced by any claim
  and are left out of the row models.
-/

namespace CuiInspector

/-- `utils.clamp`: `max(lo, min(hi, n))`, here over `ℕ`. -/
def clamp (n lo hi : ℕ) : ℕ := max lo (min hi n)

/-- Python `needle in hay` over character lists. -/
def pyIn (needle : List Char) : List Char → Bool
  | [] => needle.isEmpty
  | c :: t => needle.isPrefixOf (c :: t) || pyIn needle t

/-- Python substring test `needle in hay` for strings. -/
def strContains (hay needle : String) : Bool := pyIn needle.toList hay.toList

/-- Python `str.lower()` (ASCII range, which covers every phrase in the
defined rulesets). -/
def pyLower (s : String) : String := String.mk (s.toList.map Char.toLower)

/-- `analysis_engine._contains_any`: the sublist of `phrases` occurring in `tlow`. -/
def containsAny (tlow : String) (phrases : List String) : List String :=
  phrases.filter (fun p => strContains tlow p)

/-- The `weights` record of a ruleset (`src/rulesets.py`). -/
structure Weights where
  explicit_marking : ℕ
  context : ℕ
  pattern : ℕ
  keyword : ℕ
  missing_markings_bonus : ℕ
  multi_category_bonus : ℕ
deriving DecidableEq

/-- One named regex pattern of a ruleset (`src/rulesets.py`). -/
structure PatternDef where
  regex : String
  category : String
  confidence : ℚ
deriving DecidableEq

/-- A ruleset bundle (`src/rulesets.py`); the Python dict is an insertion-ordered
association list here. -/
structure Ruleset where
  description : String
  explicit_markings : List String
  context_phrases : List String
  patterns : List (String × PatternDef)
  keywords : List String
  weights : Weights
deriving DecidableEq

/-- The `"Basic"` ruleset, transcribed from `src/rulesets.py`. -/
def basicRS : Ruleset :=
  { description := "Balanced detection. Email is sensitive, not CUI."
    explicit_markings :=
      ["controlled unclassified information", "cui", "cui//", "fouo",
       "for official use only"]
    context_phrases :=
      ["improper dissemination", "unauthorized sharing", "missing markings",
       "do not distribute", "distribution statement", "export controlled",
       "limited dissemination", "need to know"]
    patterns :=
      [("SSN", ⟨"\\b\\d{3}-\\d{2}-\\d{4}\\b", "CUI//SP-PRIV (privacy)", 0.90⟩),
       ("DoD_ID", ⟨"\\b\\d{10}\\b", "CUI//SP-PRIV (identifier)", 0.78⟩)]
    keywords := ["itar", "ear", "dfars", "nara cui registry"]
    weights :=
      { explicit_marking := 16, context := 6, pattern := 18, keyword := 5
        missing_markings_bonus := 14, multi_category_bonus := 10 } }

/-- The `"DoD / GovCon"` ruleset, transcribed from `src/rulesets.py`. -/
def dodRS : Ruleset :=
  { description := "Stricter profile for defense contractors."
    explicit_markings :=
      ["controlled unclassified information", "cui", "cui//", "fouo",
       "for official use only", "distribution statement"]
    context_phrases :=
      ["improper handling", "improper dissemination", "unauthorized sharing",
       "unauthorized disclosure", "missing markings", "do not distribute",
       "controlled by", "need to know", "third party", "export controlled",
       "dissemination", "releasable to"]
    patterns :=
      [("SSN", ⟨"\\b\\d{3}-\\d{2}-\\d{4}\\b", "CUI//SP-PRIV (privacy)", 0.92⟩),
       ("CAGE", ⟨"\\b[A-HJ-NP-Z0-9]{5}\\b", "CUI//SP-ORG (org id)", 0.70⟩),
       ("ITAR", ⟨"\\bITAR\\b", "CUI//SP-EXPT (export)", 0.78⟩),
       ("EAR", ⟨"\\bEAR\\b", "CUI//SP-EXPT (export)", 0.72⟩),
       ("CTI", ⟨"\\b(threat indicator|ioc|indicator of compromise)\\b",
                "CUI//SP-CTI (cyber threat)", 0.75⟩)]
    keywords := ["itar", "ear", "dfars", "cmmc", "nist 800-171", "nara"]
    weights :=
      { explicit_marking := 18, context := 8, pattern := 20, keyword := 6
        missing_markings_bonus := 16, multi_category_bonus := 12 } }

/-- `rulesets.RULESETS`, an insertion-ordered dict. -/
def RULESETS : List (String × Ruleset) := [("Basic", basicRS), ("DoD / GovCon", dodRS)]

/-- Dict lookup `RULESETS[name]`, as an `Option`. -/
def lookupRuleset (name : String) : Option Ruleset :=
  (RULESETS.find? (fun p => p.1 == name)).map (fun p => p.2)

/-- The regex loop of `analyze_text` step 3: name/count pairs for every pattern
with at least one match (`patterns_found`). `rc` abstracts `re.finditer`
counting. -/
def patternsFound (rc : String → String → ℕ) (rs : Ruleset) (t : String) :
    List (String × ℕ) :=
  rs.patterns.filterMap (fun pp =>
    let cnt := rc pp.2.regex t
    if cnt = 0 then none else some (pp.1, cnt))

/-- `cui_categories[cat] = max(cui_categories.get(cat, 0.0), conf)`. -/
def catMax (m : List (String × ℚ)) (cat : String) (conf : ℚ) : List (String × ℚ) :=
  if m.any (fun e => e.1 == cat) then
    m.map (fun e => if e.1 == cat then (e.1, max e.2 conf) else e)
  else m ++ [(cat, max 0 conf)]

/-- The category-confidence dict built by `analyze_text` step 3 (unsorted; the
source sorts a copy by confidence for display only). -/
def categoriesOf (rc : String → String → ℕ) (rs : Ruleset) (t : String) :
    List (String × ℚ) :=
  rs.patterns.foldl (fun m pp =>
    if rc pp.2.regex t = 0 then m else catMax m pp.2.category pp.2.confidence) []

/-- `sum(patterns_found.values())`. -/
def patternTotal (rc : String → String → ℕ) (rs : Ruleset) (t : String) : ℕ :=
  ((patternsFound rc rs t).map (fun p => p.2)).sum

/-- `analyze_text` step 5: keywords occurring in the lowered text. -/
def keywordHits (rs : Ruleset) (tlow : String) : List String :=
  rs.keywords.filter (fun kw => strContains tlow kw)

/-- The scoring block of `analyze_text` (`score = ...; int(clamp(score, 0, 100))`).
Every defined ruleset's weights are integer literals, so the Python float score
is an integer and truncation is the identity. -/
def riskScoreOf (w : Weights) (ex ctx pat kw : ℕ) (missing multi : Bool) : ℕ :=
  clamp (ex * w.explicit_marking + min ctx 12 * w.context + pat * w.pattern
    + (if missing then w.missing_markings_bonus else 0) + kw * w.keyword
    + (if multi then w.multi_category_bonus else 0)) 0 100

/-- Python `list.insert(i, x)` (index clamped to the length). -/
def insertAt {α : Type} : ℕ → α → List α → List α
  | _, x, [] => [x]
  | 0, x, l => x :: l
  | n + 1, x, y :: l => y :: insertAt n x l

/-- The recommendation list built by `_build_recommendations_and_mapping`. -/
def buildRecommendations (cui_detected : Bool) (risk_level : String)
    (risk_score : ℕ) (missing_markings : Bool) : List String :=
  if cui_detected then
    let recs :=
      ["Apply appropriate CUI markings per NARA CUI Registry and organizational marking standard.",
       "Restrict access to authorized users and enforce least privilege for all CUI repositories.",
       "Ensure encryption in transit (TLS 1.2+) for any CUI transfer channels.",
       "Ensure encryption at rest for CUI stored in file shares, object storage, and backups.",
       "Document CUI handling scope, boundary, and controls in the SSP; update data flow diagrams.",
       "Enable and retain audit logs for CUI access, changes, downloads, and sharing events."]
    let recs :=
      if missing_markings then
        insertAt 1 "Add missing markings and dissemination controls; prohibit sharing until reclassified/marked." recs
      else recs
    if risk_level == "HIGH" then
      insertAt 0 "Treat as high-risk CUI exposure: quarantine distribution and initiate incident review." recs
    else recs
  else
    ["No strong CUI indicators detected. Apply standard information handling and validate classification."]
      ++ (if 0 < risk_score then
            ["Review sensitive indicators and ensure appropriate access controls and retention policies."]
          else [])

/-- CMMC control mapping rows attached when CUI is detected. -/
def cmmcControls : List (String × String) :=
  [("AC.1.001", "Limit system access to authorized users"),
   ("AC.3.018", "Encrypt CUI at rest"),
   ("SC.3.177", "Encrypt CUI in transit"),
   ("AU.2.041", "Audit and accountability (logging)")]

/-- NIST SP 800-171 control mapping rows attached when CUI is detected. -/
def nist171Controls : List (String × String) :=
  [("3.1.1", "Limit system access to authorized users"),
   ("3.13.8", "Implement cryptographic protections for CUI"),
   ("3.3.1", "Create and retain system audit logs")]

/-- FedRAMP control mapping rows attached when CUI is detected. -/
def fedrampControls : List (String × String) :=
  [("AC-2", "Account management (authorized users)"),
   ("SC-13", "Cryptographic protection"),
   ("AU-2", "Event logging")]

/-- Failure values of the engine. The source raises a plain Python `KeyError`
on `RULESETS[ruleset_name]`; `configurationError` is modelled from the spec
(its error taxonomy names a dedicated `ConfigurationError`, which does not
exist anywhere in `src/`) so that the two can be compared. -/
inductive EngineError where
  | keyError (key : String)
  | configurationError (msg : String)
deriving DecidableEq

/-- Whether a failure is the spec's dedicated configuration error. -/
def EngineError.isConfiguration : EngineError → Bool
  | .configurationError _ => true
  | .keyError _ => false

/-- The analysis dict returned by `analyze_text`, restricted to the fields the
claims reference (`detected_patterns`, `hits` and the excerpt strings are
display/traceability metadata). -/
structure AnalysisResult where
  ruleset : String
  cui_detected : Bool
  risk_level : String
  risk_score : ℕ
  signals : List String
  patterns_found : List (String × ℕ)
  cui_categories : List (String × ℚ)
  keyword_triggers_hit : List String
  missing_markings_heuristic : Bool
  recommendations : List String
  compliance_cmmc : List (String × String)
  compliance_nist171 : List (String × String)
  compliance_fedramp : List (String × String)
deriving DecidableEq

/-- `analysis_engine.analyze_text`. `rc` abstracts `re.finditer` counting. -/
def analyze (rc : String → String → ℕ) (text : String) (ruleset_name : String) :
    Except EngineError AnalysisResult :=
  match lookupRuleset ruleset_name with
  | none => .error (.keyError ruleset_name)
  | some rs =>
    let t := text
    let tlow := pyLower t
    let explicit_found := containsAny tlow rs.explicit_markings
    let ctx_found := containsAny tlow rs.context_phrases
    let pf := patternsFound rc rs t
    let cats := categoriesOf rc rs t
    let missing_markings := explicit_found.isEmpty && (!ctx_found.isEmpty || !pf.isEmpty)
    let kw_hits := keywordHits rs tlow
    let risk_score := riskScoreOf rs.weights explicit_found.length ctx_found.length
      (patternTotal rc rs t) kw_hits.length missing_markings (decide (2 ≤ cats.length))
    let risk_level :=
      if 70 ≤ risk_score then "HIGH" else if 30 ≤ risk_score then "MEDIUM" else "LOW"
    let cui_detected :=
      !explicit_found.isEmpty || !pf.isEmpty || (!ctx_found.isEmpty && missing_markings)
    let recommendations := buildRecommendations cui_detected risk_level risk_score missing_markings
    let signals :=
      (if !explicit_found.isEmpty then ["Explicit CUI context / markings present"] else [])
        ++ (if !ctx_found.isEmpty then ["Handling/dissemination context present"] else [])
        ++ (if !pf.isEmpty then ["Structured patterns detected"] else [])
        ++ (if missing_markings then ["Missing required markings (heuristic)"] else [])
    let signals := if signals.isEmpty then ["No strong indicators detected"] else signals
    .ok
      { ruleset := ruleset_name
        cui_detected := cui_detected
        risk_level := risk_level
        risk_score := risk_score
        signals := signals
        patterns_found := pf
        cui_categories := cats
        keyword_triggers_hit := kw_hits
        missing_markings_heuristic := missing_markings
        recommendations := recommendations
        compliance_cmmc := if cui_detected then cmmcControls else []
        compliance_nist171 := if cui_detected then nist171Controls else []
        compliance_fedramp := if cui_detected then fedrampControls else [] }

/-- A placeholder result, only reachable through `analyzeRes` on an unknown
ruleset name. -/
def defaultResult : AnalysisResult :=
  ⟨"", false, "LOW", 0, [], [], [], [], false, [], [], [], []⟩

/-- The `.ok` payload of `analyze` (total helper for stating theorems). -/
def analyzeRes (rc : String → String → ℕ) (text ruleset_name : String) : AnalysisResult :=
  match analyze rc text ruleset_name with
  | .ok r => r
  | .error _ => defaultResult

/-- A concrete match-count oracle: no regex matches anywhere. It agrees with
`re.finditer` on every text containing none of the digit/identifier shapes
required by the defined patterns (used for concrete evaluations on such texts). -/
def rcZero : String → String → ℕ := fun _ _ => 0

/-- The risk-score formula exactly as the spec states it:
`clamp(round(score), 0, 100)` with the additive score. `round` is the identity
here because the score is a natural number (integer weights). -/
def specScoreFormula (w : Weights) (ex ctx pat kw : ℕ) (absence multi : Bool) : ℕ :=
  ex * w.explicit_marking + min ctx 12 * w.context + pat * w.pattern
    + (if absence then w.missing_markings_bonus else 0) + kw * w.keyword
    + (if multi then w.multi_category_bonus else 0)

/-! ### Evidence vault (`src/inspector.py`, `src/repo.py`, schema of `src/db.py`) -/

/-- `artifacts` table row (`src/db.py`). -/
structure ArtifactRow where
  id : ℕ
  tenant_id : ℕ
  logical_name : String
deriving DecidableEq

/-- `artifact_versions` table row (`src/db.py`). -/
structure VersionRow where
  id : ℕ
  tenant_id : ℕ
  artifact_id : ℕ
  version_int : ℕ
  original_filename : String
  object_relpath : String
  sha256 : String
  size_bytes : ℕ
  mime : String
  uploaded_by : String
deriving DecidableEq

/-- `inspections` table row (`src/db.py`); the JSON payload columns are
serialize-only and the timestamps are wall clock, both outside the model. -/
structure InspectionRow where
  id : ℕ
  tenant_id : ℕ
  artifact_version_id : Option ℕ
  run_type : String
  cui_detected : Option Bool
  risk_level : Option String
  error : Option String
deriving DecidableEq

/-- `evidence_files` table row (`src/db.py`). -/
structure EvidenceRow where
  id : ℕ
  tenant_id : ℕ
  inspection_id : ℕ
  kind : String
  filename : String
  object_relpath : String
  sha256 : String
  size_bytes : ℕ
deriving DecidableEq

/-- The SQLite catalog plus the object-store directory tree. The store maps a
digest to the stored bytes (the filesystem path is digest-derived, so digests
are the keys); `next*Id` model the AUTOINCREMENT id counters. -/
structure VaultState where
  artifacts : List ArtifactRow
  versions : List VersionRow
  inspections : List InspectionRow
  evidence : List EvidenceRow
  store : List (String × List ℕ)
  nextArtifactId : ℕ
  nextVersionId : ℕ
  nextInspectionId : ℕ
  nextEvidenceId : ℕ
deriving DecidableEq

/-- A fresh vault: empty tables, counters at 1. -/
def initState : VaultState := ⟨[], [], [], [], [], 1, 1, 1, 1⟩

/-- `repo._path_for` relative to the repo root: `objects/sha[:2]/sha` is stored
as the relative path `sha[:2]/sha` under `objects/`; we keep the digest-sharded
shape `sha[:2] ++ "/" ++ sha`. -/
def relOf (sha : String) : String := sha.take 2 ++ "/" ++ sha

/-- `repo.write_object`: digest the bytes, write if absent, return
`(sha, relpath, size)`. -/
def writeObject (hash : List ℕ → String) (data : List ℕ)
    (store : List (String × List ℕ)) :
    (String × String × ℕ) × List (String × List ℕ) :=
  let sha := hash data
  let store' := if store.any (fun e => e.1 == sha) then store else store ++ [(sha, data)]
  ((sha, relOf sha, data.length), store')

/-- Python whitespace test for the `\s` class (ASCII part). -/
def pyIsSpace (c : Char) : Bool :=
  c == ' ' || c == '\t' || c == '\n' || c == '\x0d' || c == '\x0c' || c == '\x0b'

/-- Replace every whitespace character by a plain space (first half of
`re.sub(r"\s+", " ", ...)`). -/
def spacesOnly (cs : List Char) : List Char :=
  cs.map (fun c => if pyIsSpace c then ' ' else c)

/-- Squeeze runs of spaces to a single space (second half of
`re.sub(r"\s+", " ", ...)` after `spacesOnly`). -/
def squeeze : List Char → List Char
  | [] => []
  | [c] => [c]
  | a :: b :: t => if a == ' ' && b == ' ' then squeeze (b :: t) else a :: squeeze (b :: t)

/-- Python `str.strip()`. -/
def pyStrip (cs : List Char) : List Char :=
  ((cs.dropWhile pyIsSpace).reverse.dropWhile pyIsSpace).reverse

/-- `os.path.basename`: the characters after the last slash (resetting at
every slash while folding left). -/
def pyBasename (s : String) : String :=
  String.mk (s.toList.foldl (fun acc c => if c == '/' then [] else acc ++ [c]) [])

/-- `inspector._logical`: basename of `filename or "document"`, whitespace
collapsed, stripped, lowercased. -/
def pyLogical (filename : String) : String :=
  let base := pyBasename (if filename == "" then "document" else filename)
  String.mk ((pyStrip (squeeze (spacesOnly base.toList))).map Char.toLower)

/-- The `SELECT ... ORDER BY version_int DESC LIMIT 1` row: a maximal row by
`version_int` (SQLite leaves ties unspecified; the model keeps the earliest). -/
def latestVer : List VersionRow → Option VersionRow
  | [] => none
  | v :: vs =>
    match latestVer vs with
    | none => some v
    | some w => if w.version_int > v.version_int then some w else some v

/-- The version rows of one artifact within one tenant
(`WHERE tenant_id=? AND artifact_id=?`). -/
def vFilter (tid aid : ℕ) (vs : List VersionRow) : List VersionRow :=
  vs.filter (fun v => v.tenant_id == tid && v.artifact_id == aid)

/-- The artifact-row predicate `WHERE tenant_id=? AND logical_name=?`. -/
def artPred (tid : ℕ) (logical : String) : ArtifactRow → Bool :=
  fun a => a.tenant_id == tid && a.logical_name == logical

/-- The INSERT + re-SELECT tail of `upsert_artifact_version`: append the new
version row, then return the id selected by
`WHERE tenant_id=? AND artifact_id=? AND version_int=?`. -/
def insertNewVersion (tid aid next_ver : ℕ) (filename rel sha : String) (size : ℕ)
    (mime uploaded_by : String) (s : VaultState) : ℕ × VaultState :=
  let r : VersionRow :=
    ⟨s.nextVersionId, tid, aid, next_ver, filename, rel, sha, size, mime, uploaded_by⟩
  let s' := { s with versions := s.versions ++ [r], nextVersionId := s.nextVersionId + 1 }
  let sel := s'.versions.find? (fun v =>
    v.tenant_id == tid && v.artifact_id == aid && v.version_int == next_ver)
  ((sel.map (fun v => v.id)).getD 0, s')

/-- `inspector.upsert_artifact_version`. -/
def upsertArtifactVersion (hash : List ℕ → String) (tid : ℕ) (filename : String)
    (data : List ℕ) (mime uploaded_by : String) (s : VaultState) : ℕ × VaultState :=
  let logical := pyLogical filename
  let w := writeObject hash data s.store
  let sha := w.1.1
  let rel := w.1.2.1
  let size := w.1.2.2
  let s : VaultState := { s with store := w.2 }
  let ar :=
    match s.artifacts.find? (artPred tid logical) with
    | some a => (a.id, s)
    | none =>
      let arts := s.artifacts ++ [(⟨s.nextArtifactId, tid, logical⟩ : ArtifactRow)]
      let s' := { s with artifacts := arts, nextArtifactId := s.nextArtifactId + 1 }
      ((((arts.find? (artPred tid logical)).map (fun a => ArtifactRow.id a)).getD 0), s')
  let aid := ar.1
  let s := ar.2
  match latestVer (vFilter tid aid s.versions) with
  | some l =>
    if l.sha256 == sha then (l.id, s)
    else insertNewVersion tid aid (l.version_int + 1) filename rel sha size mime uploaded_by s
  | none => insertNewVersion tid aid 1 filename rel sha size mime uploaded_by s

/-- The findings fields `save_inspection_record` persists (derived summary
only, never raw text). -/
structure FindingsSummary where
  cui_detected : Option Bool
  risk_level : Option String
  error : Option String
deriving DecidableEq

/-- `inspector.save_inspection_record`. -/
def saveInspectionRecord (tid : ℕ) (artifact_version_id : Option ℕ) (run_type : String)
    (findings : FindingsSummary) (s : VaultState) : ℕ × VaultState :=
  let r : InspectionRow :=
    ⟨s.nextInspectionId, tid, artifact_version_id, run_type,
     findings.cui_detected, findings.risk_level, findings.error⟩
  (s.nextInspectionId,
   { s with inspections := s.inspections ++ [r], nextInspectionId := s.nextInspectionId + 1 })

/-- `inspector.attach_evidence_file`: write the bytes to the object store and
record an evidence row with the caller-supplied tenant (the source performs no
check that the inspection belongs to that tenant). -/
def attachEvidenceFile (hash : List ℕ → String) (tid inspection_id : ℕ)
    (kind filename : String) (data : List ℕ) (s : VaultState) : VaultState :=
  let w := writeObject hash data s.store
  let r : EvidenceRow :=
    ⟨s.nextEvidenceId, tid, inspection_id, kind, filename, w.1.2.1, w.1.1, data.length⟩
  { s with store := w.2, evidence := s.evidence ++ [r],
           nextEvidenceId := s.nextEvidenceId + 1 }

/-- N successive uploads of the same logical file into a fresh vault. -/
def runUploads (hash : List ℕ → String) (tid : ℕ) (filename : String)
    (mime uploaded_by : String) (datas : List (List ℕ)) : VaultState :=
  datas.foldl (fun st d => (upsertArtifactVersion hash tid filename d mime uploaded_by st).2)
    initState

/-! ### Tenant / access gate (`src/auth.py`, `src/tenants.py`) -/

/-- `auth.can_cross_tenant`: superadmin and auditor are cross-tenant-capable. -/
def canCrossTenant (role : String) : Bool := role == "superadmin" || role == "auditor"

/-- The `auth_user` session dict built on login. -/
structure AuthUser where
  id : ℕ
  username : String
  role : String
  tenant_id : Option ℕ
deriving DecidableEq

/-- Streamlit session state: `auth_user` and `tenant_id`. -/
structure Session where
  auth_user : Option AuthUser
  tenant_id : Option ℕ
deriving DecidableEq

/-- `auth.set_tenant_id`. -/
def setTenantId (t : Option ℕ) (s : Session) : Session := { s with tenant_id := t }

/-- `auth.role()` / `can_cross_tenant()` read through the session. -/
def canCrossSession (s : Session) : Bool :=
  match s.auth_user with
  | some u => canCrossTenant u.role
  | none => canCrossTenant ""

/-- The successful-login tail of `auth.render_login` (lines 123-132): store the
user in the session, then force the session tenant — `None` for cross-tenant
roles, the user's own tenant otherwise. -/
def loginSuccess (u : AuthUser) (s : Session) : Session :=
  let s := { s with auth_user := some u }
  if canCrossSession s then setTenantId none s else setTenantId u.tenant_id s

/-- One sidebar interaction with `tenants.render_tenant_selector_sidebar`:
`tenants` are the active tenant ids, `choice` is the caller-controlled
selection, `defaultTid` the `ensure_default_tenant()` result. -/
structure SelectorStep where
  tenants : List ℕ
  choice : ℕ
  defaultTid : ℕ
deriving DecidableEq

/-- `tenants.render_tenant_selector_sidebar`: cross-tenant users get their
selection; everyone else keeps their session tenant (defaulting it only when
unset). -/
def tenantSelector (p : SelectorStep) (s : Session) : Session :=
  if p.tenants.isEmpty then s
  else if canCrossSession s then
    let s1 := if s.tenant_id == none then setTenantId (some (p.tenants.headD p.defaultTid)) s else s
    setTenantId (some p.choice) s1
  else
    match s.tenant_id with
    | none => setTenantId (some p.defaultTid) s
    | some _ => s

/-- A whole sidebar history after login. -/
def applySelectors (steps : List SelectorStep) (s : Session) : Session :=
  steps.foldl (fun st p => tenantSelector p st) s

/-- `render_cui_inspector` line 94: the tenant id every vault write of the page
uses is the session tenant. -/
def inspectorTid (s : Session) : Option ℕ := s.tenant_id

/-! ### Password hashing (`src/auth.py` `pbkdf2_hash` / `pbkdf2_verify`) -/

/-- One lowercase hex digit (the digit table of `bytes.hex()`). -/
def hexChar : ℕ → Char
  | 0 => '0' | 1 => '1' | 2 => '2' | 3 => '3' | 4 => '4' | 5 => '5'
  | 6 => '6' | 7 => '7' | 8 => '8' | 9 => '9' | 10 => 'a' | 11 => 'b'
  | 12 => 'c' | 13 => 'd' | 14 => 'e' | 15 => 'f' | _ => '0'

/-- `bytes.hex()`: two lowercase hex digits per byte. -/
def bytesToHex (bs : List ℕ) : String :=
  String.mk (bs.foldr (fun b acc => hexChar (b % 256 / 16) :: hexChar (b % 16) :: acc) [])

/-- `auth.pbkdf2_hash` with the generated salt made explicit: the source draws
`salt = secrets.token_hex(16)` (a 32-character hex string); `dkf` abstracts
`hashlib.pbkdf2_hmac("sha256", password, salt, iters)`. -/
def pbkdf2Hash (dkf : String → String → ℕ → List ℕ) (password salt : String)
    (iters : ℕ) : String :=
  "pbkdf2_sha256" ++ "$" ++ toString iters ++ "$" ++ salt ++ "$"
    ++ bytesToHex (dkf password salt iters)

/-- Python `str.split(sep, maxsplit)` on character lists (at most `n` splits,
remainder kept whole). -/
def splitLimit (sep : Char) : ℕ → List Char → List (List Char)
  | 0, cs => [cs]
  | n + 1, cs =>
    let pre := cs.takeWhile (fun c => c ≠ sep)
    match cs.dropWhile (fun c => c ≠ sep) with
    | [] => [pre]
    | _ :: tl => pre :: splitLimit sep n tl

/-- Python `int(s)` for the non-negative decimal shapes the stored hash format
produces; any other string raises `ValueError`, caught by the caller (`none`). -/
def pyToNat? (s : String) : Option ℕ :=
  if s.toList ≠ [] ∧ s.toList.all (fun c => c.isDigit) then
    some (s.toList.foldl (fun n c => n * 10 + (c.toNat - 48)) 0)
  else none

/-- `stored.split("$", 3)`. -/
def splitDollar3 (s : String) : List String :=
  (splitLimit '$' 3 s.toList).map (fun cs => String.mk cs)

/-- `auth.pbkdf2_verify`; every Python exception path (unpacking fewer than
four parts, non-numeric iteration count) returns `false`. -/
def pbkdf2Verify (dkf : String → String → ℕ → List ℕ) (password stored : String) : Bool :=
  match splitDollar3 stored with
  | [algo, itersS, salt, hexhash] =>
    if algo ≠ "pbkdf2_sha256" then false
    else
      match pyToNat? itersS with
      | none => false
      | some iters => bytesToHex (dkf password salt iters) == hexhash
  | _ => false

/-- A vault holding one inspection that belongs to tenant 2. -/
def c8State : VaultState :=
  { initState with
      inspections := [⟨1, 2, none, "manual", some true, some "LOW", none⟩],
      nextInspectionId := 2 }

/-- Invariant of a vault that has served `k` distinct-content uploads of one
logical file for one tenant: a single artifact row, every version row owned by
that tenant and artifact, version numbers exactly `1..k` in row order, and the
latest row carrying version `k` and the digest of the last upload. -/
def uploadInv (tid : ℕ) (fn : String) (aid k : ℕ) (lastSha : String)
    (s : VaultState) : Prop :=
  s.artifacts = [⟨aid, tid, pyLogical fn⟩] ∧
  (∀ v ∈ s.versions, v.tenant_id = tid ∧ v.artifact_id = aid) ∧
  s.versions.map (fun v => v.version_int) = List.range' 1 k ∧
  (∀ w, latestVer s.versions = some w → w.version_int = k ∧ w.sha256 = lastSha)

/-! ### Helper lemmas -/

theorem clamp_le_hi (n : ℕ) : clamp n 0 100 ≤ 100 := by
  unfold clamp
  omega

theorem analyzeRes_recommendations (rc : String → String → ℕ) (text name : String)
    (rs : Ruleset) (hlook : lookupRuleset name = some rs) :
    (analyzeRes rc text name).recommendations =
      buildRecommendations (analyzeRes rc text name).cui_detected
        (analyzeRes rc text name).risk_level
        (analyzeRes rc text name).risk_score
        (analyzeRes rc text name).missing_markings_heuristic := by
  unfold analyzeRes analyze
  rw [hlook]

theorem buildRecommendations_not_detected (rl : String) (rsc : ℕ) (mm : Bool) :
    buildRecommendations false rl rsc mm =
      (if rsc = 0 then
        ["No strong CUI indicators detected. Apply standard information handling and validate classification."]
      else
        ["No strong CUI indicators detected. Apply standard information handling and validate classification.",
         "Review sensitive indicators and ensure appropriate access controls and retention policies."]) := by
  unfold buildRecommendations
  by_cases h : rsc = 0 <;> simp [h, Nat.pos_of_ne_zero]

theorem clamp_mono {n m lo hi : ℕ} (h : n ≤ m) : clamp n lo hi ≤ clamp m lo hi := by
  unfold clamp
  omega

/-! ### Claims about the analysis engine -/

/-- C4: for every text and defined ruleset, `analyze_text` scores by the
additive formula — explicit hits times their weight, context hits capped at
12, total pattern count, the absence bonus, keyword hits, the multi-category
bonus — and returns `risk_score = clamp(round(score), 0, 100)` (round being
the identity for the integer weights), with risk level HIGH at 70, MEDIUM at
30, else LOW. -/
theorem spec_c4_risk_score_formula (rc : String → String → ℕ) (text name : String)
    (rs : Ruleset) (hlook : lookupRuleset name = some rs) :
    analyze rc text name = Except.ok (analyzeRes rc text name) ∧
    (analyzeRes rc text name).risk_score =
      clamp
        (specScoreFormula rs.weights
          (containsAny (pyLower text) rs.explicit_markings).length
          (containsAny (pyLower text) rs.context_phrases).length
          (patternTotal rc rs text)
          (keywordHits rs (pyLower text)).length
          (analyzeRes rc text name).missing_markings_heuristic
          (decide (2 ≤ (categoriesOf rc rs text).length))) 0 100 ∧
    (analyzeRes rc text name).risk_level =
      (if 70 ≤ (analyzeRes rc text name).risk_score then "HIGH"
       else if 30 ≤ (analyzeRes rc text name).risk_score then "MEDIUM" else "LOW") := by
  unfold analyzeRes analyze
  rw [hlook]
  exact ⟨rfl, rfl, rfl⟩

/-- Witness for C4 at ruleset "Basic" and the text "cui". -/
theorem spec_c4_risk_score_formula_witness :
    lookupRuleset "Basic" = some basicRS ∧
    analyze rcZero "cui" "Basic" = Except.ok (analyzeRes rcZero "cui" "Basic") ∧
    (analyzeRes rcZero "cui" "Basic").risk_score =
      clamp
        (specScoreFormula basicRS.weights
          (containsAny (pyLower "cui") basicRS.explicit_markings).length
          (containsAny (pyLower "cui") basicRS.context_phrases).length
          (patternTotal rcZero basicRS "cui")
          (keywordHits basicRS (pyLower "cui")).length
          (analyzeRes rcZero "cui" "Basic").missing_markings_heuristic
          (decide (2 ≤ (categoriesOf rcZero basicRS "cui").length))) 0 100 ∧
    (analyzeRes rcZero "cui" "Basic").risk_level =
      (if 70 ≤ (analyzeRes rcZero "cui" "Basic").risk_score then "HIGH"
       else if 30 ≤ (analyzeRes rcZero "cui" "Basic").risk_score then "MEDIUM" else "LOW") := by
  have h := spec_c4_risk_score_formula rcZero "cui" "Basic" basicRS rfl
  exact ⟨rfl, h.1, h.2.1, h.2.2⟩

/-- C5: `cui_detected` is true iff explicit markings were found, or a
structured pattern matched, or context phrases were found together with the
absence heuristic; and the absence heuristic fires exactly when context or
pattern signals exist without any explicit marking phrase. -/
theorem spec_c5_detection_iff (rc : String → String → ℕ) (text name : String)
    (rs : Ruleset) (hlook : lookupRuleset name = some rs) :
    analyze rc text name = Except.ok (analyzeRes rc text name) ∧
    (analyzeRes rc text name).missing_markings_heuristic =
      ((containsAny (pyLower text) rs.explicit_markings).isEmpty
        && (!(containsAny (pyLower text) rs.context_phrases).isEmpty
            || !(patternsFound rc rs text).isEmpty)) ∧
    (analyzeRes rc text name).cui_detected =
      (!(containsAny (pyLower text) rs.explicit_markings).isEmpty
        || !(patternsFound rc rs text).isEmpty
        || (!(containsAny (pyLower text) rs.context_phrases).isEmpty
            && (analyzeRes rc text name).missing_markings_heuristic)) := by
  unfold analyzeRes analyze
  rw [hlook]
  exact ⟨rfl, rfl, rfl⟩

/-- Witness for C5 at ruleset "Basic" and the text "need to know". -/
theorem spec_c5_detection_iff_witness :
    lookupRuleset "Basic" = some basicRS ∧
    (analyzeRes rcZero "need to know" "Basic").missing_markings_heuristic =
      ((containsAny (pyLower "need to know") basicRS.explicit_markings).isEmpty
        && (!(containsAny (pyLower "need to know") basicRS.context_phrases).isEmpty
            || !(patternsFound rcZero basicRS "need to know").isEmpty)) ∧
    (analyzeRes rcZero "need to know" "Basic").cui_detected =
      (!(containsAny (pyLower "need to know") basicRS.explicit_markings).isEmpty
        || !(patternsFound rcZero basicRS "need to know").isEmpty
        || (!(containsAny (pyLower "need to know") basicRS.context_phrases).isEmpty
            && (analyzeRes rcZero "need to know" "Basic").missing_markings_heuristic)) := by
  have h := spec_c5_detection_iff rcZero "need to know" "Basic" basicRS rfl
  exact ⟨rfl, h.2.1, h.2.2⟩

/-- C6: for every defined ruleset, the risk score is monotone in each signal
count separately (the others held fixed), and every returned risk score lies
in [0, 100]. -/
theorem spec_c6_monotone_bounded (name : String) (rs : Ruleset)
    (hlook : lookupRuleset name = some rs) :
    (∀ ex ex' ctx ctx' pat pat' kw kw' : ℕ, ∀ m mc : Bool,
        ex ≤ ex' → ctx ≤ ctx' → pat ≤ pat' → kw ≤ kw' →
        riskScoreOf rs.weights ex ctx pat kw m mc
          ≤ riskScoreOf rs.weights ex' ctx' pat' kw' m mc) ∧
    (∀ (rc : String → String → ℕ) (text : String),
        (analyzeRes rc text name).risk_score ≤ 100
          ∧ 0 ≤ (analyzeRes rc text name).risk_score) := by
  constructor
  · intro ex ex' ctx ctx' pat pat' kw kw' m mc hex hctx hpat hkw
    unfold riskScoreOf
    apply clamp_mono
    have h1 : ex * rs.weights.explicit_marking ≤ ex' * rs.weights.explicit_marking :=
      Nat.mul_le_mul_right _ hex
    have h2 : min ctx 12 * rs.weights.context ≤ min ctx' 12 * rs.weights.context :=
      Nat.mul_le_mul_right _ (by omega)
    have h3 : pat * rs.weights.pattern ≤ pat' * rs.weights.pattern :=
      Nat.mul_le_mul_right _ hpat
    have h4 : kw * rs.weights.keyword ≤ kw' * rs.weights.keyword :=
      Nat.mul_le_mul_right _ hkw
    omega
  · intro rc text
    refine ⟨?_, Nat.zero_le _⟩
    unfold analyzeRes analyze
    rw [hlook]
    exact clamp_le_hi _

/-- Witness for C6 at ruleset "Basic", concrete counts and a concrete text. -/
theorem spec_c6_monotone_bounded_witness :
    lookupRuleset "Basic" = some basicRS ∧
    riskScoreOf basicRS.weights 0 1 2 3 true false
      ≤ riskScoreOf basicRS.weights 1 2 3 4 true false ∧
    (analyzeRes rcZero "itar" "Basic").risk_score ≤ 100 := by
  have h := spec_c6_monotone_bounded "Basic" basicRS rfl
  exact ⟨rfl, h.1 0 1 1 2 2 3 3 4 true false (by decide) (by decide) (by decide) (by decide),
    (h.2 rcZero "itar").1⟩

/-- C7 as stated is false: on an unknown ruleset name the engine fails with a
plain `KeyError` from the dict lookup `RULESETS[ruleset_name]`, not with a
dedicated `ConfigurationError` (no such class exists in the source). -/
theorem spec_c7_counterexample :
    analyze rcZero "" "NoSuchRuleset"
        = Except.error (EngineError.keyError "NoSuchRuleset") ∧
    (match analyze rcZero "" "NoSuchRuleset" with
      | .error e => e.isConfiguration
      | .ok _ => false) = false := by
  exact ⟨rfl, rfl⟩

/-- C7 amended: for every ruleset name outside the defined ones the engine
fails — but with the dict lookup `KeyError`, not a dedicated configuration
error — and for every defined name the lookup (and the whole analysis)
succeeds. -/
theorem spec_c7_amended (rc : String → String → ℕ) (text name : String) :
    (match lookupRuleset name with
      | none => analyze rc text name = Except.error (EngineError.keyError name)
      | some _ => (analyze rc text name).isOk = true) := by
  cases h : lookupRuleset name with
  | none =>
    simp only
    unfold analyze
    rw [h]
  | some rs =>
    simp only
    unfold analyze
    rw [h]
    rfl

/-- C9 as stated is false: the text "itar" under ruleset "Basic" triggers only
a keyword (no explicit marking, no context phrase, and the Basic regexes
require digit shapes absent from "itar", so the zero match-count oracle agrees
with `re`), giving `cui_detected = false` with `risk_score = 5 > 0` — and the
engine then returns two recommendations, not exactly one. -/
theorem spec_c9_counterexample :
    ((analyze rcZero "itar" "Basic").toOption.map
        (fun r => (r.cui_detected, r.risk_score, r.recommendations.length)))
      = some (false, 5, 2) := by
  decide

/-- C9 amended: whenever CUI is not detected the engine returns the single
neutral recommendation if the risk score is 0, and the neutral recommendation
followed by one review recommendation if the risk score is positive. -/
theorem spec_c9_amended (rc : String → String → ℕ) (text name : String)
    (rs : Ruleset) (hlook : lookupRuleset name = some rs)
    (hcui : (analyzeRes rc text name).cui_detected = false) :
    (analyzeRes rc text name).recommendations =
      (if (analyzeRes rc text name).risk_score = 0 then
        ["No strong CUI indicators detected. Apply standard information handling and validate classification."]
      else
        ["No strong CUI indicators detected. Apply standard information handling and validate classification.",
         "Review sensitive indicators and ensure appropriate access controls and retention policies."]) := by
  rw [analyzeRes_recommendations rc text name rs hlook, hcui,
    buildRecommendations_not_detected]

/-- Witness for the amended C9 at ruleset "Basic" and the empty text. -/
theorem spec_c9_amended_witness :
    lookupRuleset "Basic" = some basicRS ∧
    (analyzeRes rcZero "" "Basic").cui_detected = false ∧
    (analyzeRes rcZero "" "Basic").recommendations =
      (if (analyzeRes rcZero "" "Basic").risk_score = 0 then
        ["No strong CUI indicators detected. Apply standard information handling and validate classification."]
      else
        ["No strong CUI indicators detected. Apply standard information handling and validate classification.",
         "Review sensitive indicators and ensure appropriate access controls and retention policies."]) := by
  exact ⟨rfl, by decide, spec_c9_amended rcZero "" "Basic" basicRS rfl (by decide)⟩

/-! ### Vault helper lemmas -/

theorem latestVer_cons_ne_none (v : VersionRow) (vs : List VersionRow) :
    latestVer (v :: vs) ≠ none := by
  unfold latestVer
  cases h : latestVer vs
  · simp
  · simp only
    split <;> simp

theorem eq_nil_of_latestVer_none {l : List VersionRow} (h : latestVer l = none) :
    l = [] := by
  cases l with
  | nil => rfl
  | cons v vs => exact absurd h (latestVer_cons_ne_none v vs)

theorem latestVer_mem : ∀ {l : List VersionRow} {w : VersionRow},
    latestVer l = some w → w ∈ l := by
  intro l
  induction l with
  | nil => intro w h; simp [latestVer] at h
  | cons v vs ih =>
    intro w h
    unfold latestVer at h
    cases h' : latestVer vs with
    | none =>
      rw [h'] at h
      injection h with h
      exact h ▸ List.mem_cons_self v vs
    | some u =>
      rw [h'] at h
      simp only at h
      by_cases hgt : u.version_int > v.version_int
      · rw [if_pos hgt] at h
        injection h with h
        exact List.mem_cons_of_mem v (h ▸ ih h')
      · rw [if_neg hgt] at h
        injection h with h
        exact h ▸ List.mem_cons_self v vs

theorem latestVer_ge : ∀ {l : List VersionRow} {w : VersionRow},
    latestVer l = some w → ∀ v ∈ l, v.version_int ≤ w.version_int := by
  intro l
  induction l with
  | nil => intro w _ v hv; simp at hv
  | cons v vs ih =>
    intro w h x hx
    unfold latestVer at h
    cases h' : latestVer vs with
    | none =>
      rw [h'] at h
      injection h with h
      have hvs := eq_nil_of_latestVer_none h'
      subst hvs
      simp at hx
      subst hx
      exact h ▸ le_refl _
    | some u =>
      rw [h'] at h
      simp only at h
      by_cases hgt : u.version_int > v.version_int
      · rw [if_pos hgt] at h
        injection h with h
        subst h
        rcases List.mem_cons.mp hx with rfl | hx
        · exact le_of_lt hgt
        · exact ih h' x hx
      · rw [if_neg hgt] at h
        injection h with h
        subst h
        rcases List.mem_cons.mp hx with rfl | hx
        · exact le_refl _
        · exact le_trans (ih h' x hx) (by omega)

theorem latestVer_append_gt {l : List VersionRow} {r : VersionRow}
    (h : ∀ v ∈ l, v.version_int < r.version_int) :
    latestVer (l ++ [r]) = some r := by
  induction l with
  | nil => simp [latestVer]
  | cons v vs ih =>
    have hv := h v (List.mem_cons_self v vs)
    rw [List.cons_append]
    unfold latestVer
    rw [ih (fun x hx => h x (List.mem_cons_of_mem v hx))]
    simp only
    rw [if_pos hv]

theorem find?_append_right_of_none {α : Type} {p : α → Bool} {l : List α} {r : α}
    (hr : p r = true) (hl : List.find? p l = none) :
    List.find? p (l ++ [r]) = some r := by
  rw [List.find?_append, hl]
  simp [List.find?_cons_of_pos _ hr]

theorem find?_append_singleton_exists {α : Type} {p : α → Bool} (l : List α) (r : α)
    (hr : p r = true) :
    ∃ w, List.find? p (l ++ [r]) = some w ∧ p w = true ∧ w ∈ l ++ [r] := by
  cases h : List.find? p (l ++ [r]) with
  | some w => exact ⟨w, rfl, List.find?_some h, List.mem_of_find?_eq_some h⟩
  | none =>
    exfalso
    have := List.find?_eq_none.mp h r (by simp)
    exact this hr

theorem writeObject_of_mem (hash : List ℕ → String) (data : List ℕ)
    (st : List (String × List ℕ)) (h : st.any (fun e => e.1 == hash data) = true) :
    (writeObject hash data st).2 = st := by
  unfold writeObject
  simp [h]

theorem writeObject_any (hash : List ℕ → String) (data : List ℕ)
    (st : List (String × List ℕ)) :
    ((writeObject hash data st).2).any (fun e => e.1 == hash data) = true := by
  unfold writeObject
  by_cases h : st.any (fun e => e.1 == hash data) = true
  · simp [h]
  · simp only [Bool.not_eq_true] at h
    simp [h]

theorem writeObject_count_one (hash : List ℕ → String) (data : List ℕ)
    (st : List (String × List ℕ)) (hnd : (st.map Prod.fst).Nodup) :
    ((writeObject hash data st).2).countP (fun e => e.1 == hash data) = 1 := by
  have hcp : ∀ t : List (String × List ℕ),
      t.countP (fun e => e.1 == hash data) = (t.map Prod.fst).count (hash data) := by
    intro t
    rw [List.count, List.countP_map]
    rfl
  unfold writeObject
  by_cases h : st.any (fun e => e.1 == hash data) = true
  · simp only [h, if_true]
    rw [hcp]
    apply List.count_eq_one_of_mem hnd
    rcases List.any_eq_true.mp h with ⟨e, he, hpe⟩
    exact (eq_of_beq hpe) ▸ List.mem_map_of_mem Prod.fst he
  · simp only [Bool.not_eq_true] at h
    simp only [h, Bool.false_eq_true, if_false]
    rw [hcp]
    have hnm : hash data ∉ st.map Prod.fst := by
      intro hm
      rcases List.mem_map.mp hm with ⟨e, he, hfe⟩
      have : st.any (fun x => x.1 == hash data) = true :=
        List.any_eq_true.mpr ⟨e, he, by simp [hfe]⟩
      rw [h] at this
      exact Bool.false_ne_true this
    simp [List.count_append, List.count_eq_zero_of_not_mem hnm]

theorem writeObject_keys_nodup (hash : List ℕ → String) (data : List ℕ)
    (st : List (String × List ℕ)) (hnd : (st.map Prod.fst).Nodup) :
    (((writeObject hash data st).2).map Prod.fst).Nodup := by
  unfold writeObject
  by_cases h : st.any (fun e => e.1 == hash data) = true
  · simp [h, hnd]
  · simp only [Bool.not_eq_true] at h
    simp only [h, Bool.false_eq_true, if_false]
    rw [List.map_append]
    refine List.Nodup.append hnd (by simp) ?_
    intro x hx hy
    simp only [List.map_cons, List.map_nil, List.mem_singleton] at hy
    subst hy
    rcases List.mem_map.mp hx with ⟨e, he, hfe⟩
    have : st.any (fun x => x.1 == hash data) = true :=
      List.any_eq_true.mpr ⟨e, he, by simp [hfe]⟩
    rw [h] at this
    exact Bool.false_ne_true this

theorem insertNewVersion_spec (tid aid next_ver : ℕ) (fn rel sha : String) (size : ℕ)
    (mime ub : String) (s : VaultState)
    (hnm : ∀ v ∈ vFilter tid aid s.versions, v.version_int < next_ver) :
    insertNewVersion tid aid next_ver fn rel sha size mime ub s
      = (s.nextVersionId,
         { s with
             versions := s.versions
               ++ [⟨s.nextVersionId, tid, aid, next_ver, fn, rel, sha, size, mime, ub⟩],
             nextVersionId := s.nextVersionId + 1 }) := by
  unfold insertNewVersion
  have hfind : List.find?
      (fun v => v.tenant_id == tid && v.artifact_id == aid && v.version_int == next_ver)
      (s.versions ++ [⟨s.nextVersionId, tid, aid, next_ver, fn, rel, sha, size, mime, ub⟩])
      = some ⟨s.nextVersionId, tid, aid, next_ver, fn, rel, sha, size, mime, ub⟩ := by
    apply find?_append_right_of_none
    · simp
    · rw [List.find?_eq_none]
      intro v hv hpv
      simp only [Bool.and_eq_true, beq_iff_eq] at hpv
      have hvf : v ∈ vFilter tid aid s.versions := by
        unfold vFilter
        rw [List.mem_filter]
        exact ⟨hv, by simp [hpv.1.1, hpv.1.2]⟩
      have := hnm v hvf
      omega
  simp only [hfind]
  rfl

theorem upsert_eq_found (hash : List ℕ → String) (tid : ℕ) (fn : String)
    (data : List ℕ) (mime ub : String) (s : VaultState) (a : ArtifactRow)
    (hfa : List.find? (artPred tid (pyLogical fn)) s.artifacts = some a) :
    upsertArtifactVersion hash tid fn data mime ub s =
      (let s1 : VaultState := { s with store := (writeObject hash data s.store).2 }
       match latestVer (vFilter tid a.id s.versions) with
       | some l =>
         if l.sha256 == hash data then (l.id, s1)
         else insertNewVersion tid a.id (l.version_int + 1) fn (relOf (hash data))
           (hash data) data.length mime ub s1
       | none => insertNewVersion tid a.id 1 fn (relOf (hash data))
           (hash data) data.length mime ub s1) := by
  unfold upsertArtifactVersion
  simp only [hfa]
  rfl

theorem upsert_eq_new (hash : List ℕ → String) (tid : ℕ) (fn : String)
    (data : List ℕ) (mime ub : String) (s : VaultState)
    (hfa : List.find? (artPred tid (pyLogical fn)) s.artifacts = none) :
    upsertArtifactVersion hash tid fn data mime ub s =
      (let s1 : VaultState :=
        { s with store := (writeObject hash data s.store).2,
                 artifacts := s.artifacts ++ [⟨s.nextArtifactId, tid, pyLogical fn⟩],
                 nextArtifactId := s.nextArtifactId + 1 }
       match latestVer (vFilter tid s.nextArtifactId s.versions) with
       | some l =>
         if l.sha256 == hash data then (l.id, s1)
         else insertNewVersion tid s.nextArtifactId (l.version_int + 1) fn
           (relOf (hash data)) (hash data) data.length mime ub s1
       | none => insertNewVersion tid s.nextArtifactId 1 fn (relOf (hash data))
           (hash data) data.length mime ub s1) := by
  unfold upsertArtifactVersion
  simp only [hfa]
  have hsel : List.find? (artPred tid (pyLogical fn))
      (s.artifacts ++ [⟨s.nextArtifactId, tid, pyLogical fn⟩])
      = some ⟨s.nextArtifactId, tid, pyLogical fn⟩ :=
    find?_append_right_of_none (by simp [artPred]) hfa
  simp only [hsel]
  rfl

theorem upsert_dedup (hash : List ℕ → String) (tid : ℕ) (fn : String) (data : List ℕ)
    (mime ub : String) (s : VaultState) (a : ArtifactRow) (w : VersionRow)
    (hmem : s.store.any (fun e => e.1 == hash data) = true)
    (hfa : List.find? (artPred tid (pyLogical fn)) s.artifacts = some a)
    (hlast : latestVer (vFilter tid a.id s.versions) = some w)
    (hsha : w.sha256 = hash data) :
    upsertArtifactVersion hash tid fn data mime ub s = (w.id, s) := by
  rw [upsert_eq_found hash tid fn data mime ub s a hfa]
  simp only [hlast]
  rw [if_pos (by rw [hsha]; exact beq_self_eq_true _)]
  rw [writeObject_of_mem hash data s.store hmem]

theorem upsert_store_eq (hash : List ℕ → String) (tid : ℕ) (fn : String)
    (data : List ℕ) (mime ub : String) (s : VaultState) :
    (upsertArtifactVersion hash tid fn data mime ub s).2.store
      = (writeObject hash data s.store).2 := by
  cases hfa : List.find? (artPred tid (pyLogical fn)) s.artifacts with
  | some a =>
    rw [upsert_eq_found hash tid fn data mime ub s a hfa]
    cases hl : latestVer (vFilter tid a.id s.versions) with
    | some l =>
      dsimp only
      by_cases hs : (l.sha256 == hash data) = true
      · rw [if_pos hs]
      · rw [if_neg hs]
        rfl
    | none => rfl
  | none =>
    rw [upsert_eq_new hash tid fn data mime ub s hfa]
    cases hl : latestVer (vFilter tid s.nextArtifactId s.versions) with
    | some l =>
      dsimp only
      by_cases hs : (l.sha256 == hash data) = true
      · rw [if_pos hs]
      · rw [if_neg hs]
        rfl
    | none => rfl

theorem upsert_artifacts_cases (hash : List ℕ → String) (tid : ℕ) (fn : String)
    (data : List ℕ) (mime ub : String) (s : VaultState) :
    (upsertArtifactVersion hash tid fn data mime ub s).2.artifacts = s.artifacts ∨
    (upsertArtifactVersion hash tid fn data mime ub s).2.artifacts
      = s.artifacts ++ [⟨s.nextArtifactId, tid, pyLogical fn⟩] := by
  cases hfa : List.find? (artPred tid (pyLogical fn)) s.artifacts with
  | some a =>
    rw [upsert_eq_found hash tid fn data mime ub s a hfa]
    cases hl : latestVer (vFilter tid a.id s.versions) with
    | some l =>
      dsimp only
      by_cases hs : (l.sha256 == hash data) = true
      · rw [if_pos hs]
        exact Or.inl rfl
      · rw [if_neg hs]
        exact Or.inl rfl
    | none => exact Or.inl rfl
  | none =>
    rw [upsert_eq_new hash tid fn data mime ub s hfa]
    cases hl : latestVer (vFilter tid s.nextArtifactId s.versions) with
    | some l =>
      dsimp only
      by_cases hs : (l.sha256 == hash data) = true
      · rw [if_pos hs]
        exact Or.inr rfl
      · rw [if_neg hs]
        exact Or.inr rfl
    | none => exact Or.inr rfl

theorem upsert_versions_cases (hash : List ℕ → String) (tid : ℕ) (fn : String)
    (data : List ℕ) (mime ub : String) (s : VaultState) :
    (upsertArtifactVersion hash tid fn data mime ub s).2.versions = s.versions ∨
    ∃ r : VersionRow, r.tenant_id = tid ∧
      (upsertArtifactVersion hash tid fn data mime ub s).2.versions
        = s.versions ++ [r] := by
  cases hfa : List.find? (artPred tid (pyLogical fn)) s.artifacts with
  | some a =>
    rw [upsert_eq_found hash tid fn data mime ub s a hfa]
    cases hl : latestVer (vFilter tid a.id s.versions) with
    | some l =>
      dsimp only
      by_cases hs : (l.sha256 == hash data) = true
      · rw [if_pos hs]
        exact Or.inl rfl
      · rw [if_neg hs]
        exact Or.inr ⟨⟨s.nextVersionId, tid, a.id, l.version_int + 1, fn,
          relOf (hash data), hash data, data.length, mime, ub⟩, rfl, rfl⟩
    | none =>
      exact Or.inr ⟨⟨s.nextVersionId, tid, a.id, 1, fn,
        relOf (hash data), hash data, data.length, mime, ub⟩, rfl, rfl⟩
  | none =>
    rw [upsert_eq_new hash tid fn data mime ub s hfa]
    cases hl : latestVer (vFilter tid s.nextArtifactId s.versions) with
    | some l =>
      dsimp only
      by_cases hs : (l.sha256 == hash data) = true
      · rw [if_pos hs]
        exact Or.inl rfl
      · rw [if_neg hs]
        exact Or.inr ⟨⟨s.nextVersionId, tid, s.nextArtifactId, l.version_int + 1, fn,
          relOf (hash data), hash data, data.length, mime, ub⟩, rfl, rfl⟩
    | none =>
      exact Or.inr ⟨⟨s.nextVersionId, tid, s.nextArtifactId, 1, fn,
        relOf (hash data), hash data, data.length, mime, ub⟩, rfl, rfl⟩

/-- Post-state of one `upsert_artifact_version` call: the artifact is
resolvable, the latest version of that artifact carries the digest of the
uploaded bytes and its id is the returned id, and the object store holds that
digest exactly once (with distinct keys preserved). -/
theorem upsert_post (hash : List ℕ → String) (tid : ℕ) (fn : String) (data : List ℕ)
    (mime ub : String) (s : VaultState) :
    ∃ a w,
      List.find? (artPred tid (pyLogical fn))
          (upsertArtifactVersion hash tid fn data mime ub s).2.artifacts = some a ∧
      latestVer (vFilter tid a.id
          (upsertArtifactVersion hash tid fn data mime ub s).2.versions) = some w ∧
      w.sha256 = hash data ∧
      (upsertArtifactVersion hash tid fn data mime ub s).1 = w.id ∧
      (upsertArtifactVersion hash tid fn data mime ub s).2.store.any
          (fun e => e.1 == hash data) = true := by
  have hany := writeObject_any hash data s.store
  cases hfa0 : List.find? (artPred tid (pyLogical fn)) s.artifacts with
  | some a0 =>
    rw [upsert_eq_found hash tid fn data mime ub s a0 hfa0]
    cases hl : latestVer (vFilter tid a0.id s.versions) with
    | some l =>
      by_cases hs : (l.sha256 == hash data) = true
      · simp only [hl]
        rw [if_pos hs]
        exact ⟨a0, l, hfa0, hl, eq_of_beq hs, rfl, hany⟩
      · simp only [hl]
        rw [if_neg hs]
        rw [insertNewVersion_spec tid a0.id (l.version_int + 1) fn (relOf (hash data)) (hash data) data.length mime ub { s with store := (writeObject hash data s.store).2 } (fun v hv => Nat.lt_succ_of_le (latestVer_ge hl v hv))]
        refine ⟨a0, ⟨s.nextVersionId, tid, a0.id, l.version_int + 1, fn, relOf (hash data), hash data, data.length, mime, ub⟩, hfa0, ?_, rfl, rfl, hany⟩
        dsimp only
        unfold vFilter
        rw [List.filter_append]
        simp only [List.filter_cons, List.filter_nil, beq_self_eq_true, Bool.and_self, if_true]
        exact latestVer_append_gt (fun v hv => Nat.lt_succ_of_le (latestVer_ge hl v hv))
    | none =>
      simp only [hl]
      have hemp : vFilter tid a0.id s.versions = [] := eq_nil_of_latestVer_none hl
      rw [insertNewVersion_spec tid a0.id 1 fn (relOf (hash data)) (hash data) data.length mime ub { s with store := (writeObject hash data s.store).2 } (fun v hv => by rw [hemp] at hv; simp at hv)]
      refine ⟨a0, ⟨s.nextVersionId, tid, a0.id, 1, fn, relOf (hash data), hash data, data.length, mime, ub⟩, hfa0, ?_, rfl, rfl, hany⟩
      dsimp only
      unfold vFilter
      rw [List.filter_append]
      unfold vFilter at hemp
      rw [hemp]
      simp only [List.filter_cons, List.filter_nil, beq_self_eq_true, Bool.and_self, if_true, List.nil_append]
      rfl
  | none =>
    rw [upsert_eq_new hash tid fn data mime ub s hfa0]
    have hsel : List.find? (artPred tid (pyLogical fn))
        (s.artifacts ++ [⟨s.nextArtifactId, tid, pyLogical fn⟩])
        = some ⟨s.nextArtifactId, tid, pyLogical fn⟩ :=
      find?_append_right_of_none (by simp [artPred]) hfa0
    cases hl : latestVer (vFilter tid s.nextArtifactId s.versions) with
    | some l =>
      by_cases hs : (l.sha256 == hash data) = true
      · simp only [hl]
        rw [if_pos hs]
        exact ⟨⟨s.nextArtifactId, tid, pyLogical fn⟩, l, hsel, hl, eq_of_beq hs, rfl, hany⟩
      · simp only [hl]
        rw [if_neg hs]
        rw [insertNewVersion_spec tid s.nextArtifactId (l.version_int + 1) fn (relOf (hash data)) (hash data) data.length mime ub { s with store := (writeObject hash data s.store).2, artifacts := s.artifacts ++ [⟨s.nextArtifactId, tid, pyLogical fn⟩], nextArtifactId := s.nextArtifactId + 1 } (fun v hv => Nat.lt_succ_of_le (latestVer_ge hl v hv))]
        refine ⟨⟨s.nextArtifactId, tid, pyLogical fn⟩, ⟨s.nextVersionId, tid, s.nextArtifactId, l.version_int + 1, fn, relOf (hash data), hash data, data.length, mime, ub⟩, hsel, ?_, rfl, rfl, hany⟩
        dsimp only
        unfold vFilter
        rw [List.filter_append]
        simp only [List.filter_cons, List.filter_nil, beq_self_eq_true, Bool.and_self, if_true]
        exact latestVer_append_gt (fun v hv => Nat.lt_succ_of_le (latestVer_ge hl v hv))
    | none =>
      simp only [hl]
      have hemp : vFilter tid s.nextArtifactId s.versions = [] :=
        eq_nil_of_latestVer_none hl
      rw [insertNewVersion_spec tid s.nextArtifactId 1 fn (relOf (hash data)) (hash data) data.length mime ub { s with store := (writeObject hash data s.store).2, artifacts := s.artifacts ++ [⟨s.nextArtifactId, tid, pyLogical fn⟩], nextArtifactId := s.nextArtifactId + 1 } (fun v hv => by rw [hemp] at hv; simp at hv)]
      refine ⟨⟨s.nextArtifactId, tid, pyLogical fn⟩, ⟨s.nextVersionId, tid, s.nextArtifactId, 1, fn, relOf (hash data), hash data, data.length, mime, ub⟩, hsel, ?_, rfl, rfl, hany⟩
      dsimp only
      unfold vFilter
      rw [List.filter_append]
      unfold vFilter at hemp
      rw [hemp]
      simp only [List.filter_cons, List.filter_nil, beq_self_eq_true, Bool.and_self, if_true, List.nil_append]
      rfl

/-! ### Claim C1: idempotent dedup -/

/-- C1: two successive uploads of byte-identical content for the same tenant
and logical filename return the same version id, create no second version row,
leave the object store untouched on the second call, and leave exactly one
blob under that content digest (given the filesystem invariant that store
paths — the digests — are distinct). -/
theorem spec_c1_idempotent_dedup (hash : List ℕ → String) (tid : ℕ) (fn : String)
    (data : List ℕ) (mime ub : String) (s : VaultState)
    (hnd : (s.store.map Prod.fst).Nodup) :
    (upsertArtifactVersion hash tid fn data mime ub
        (upsertArtifactVersion hash tid fn data mime ub s).2).1
      = (upsertArtifactVersion hash tid fn data mime ub s).1 ∧
    (upsertArtifactVersion hash tid fn data mime ub
        (upsertArtifactVersion hash tid fn data mime ub s).2).2.versions
      = (upsertArtifactVersion hash tid fn data mime ub s).2.versions ∧
    (upsertArtifactVersion hash tid fn data mime ub
        (upsertArtifactVersion hash tid fn data mime ub s).2).2.store
      = (upsertArtifactVersion hash tid fn data mime ub s).2.store ∧
    ((upsertArtifactVersion hash tid fn data mime ub s).2.store.countP
        (fun e => e.1 == hash data)) = 1 := by
  obtain ⟨a, w, hfa, hlast, hsha, hret, hany⟩ :=
    upsert_post hash tid fn data mime ub s
  have h2 := upsert_dedup hash tid fn data mime ub
    (upsertArtifactVersion hash tid fn data mime ub s).2 a w hany hfa hlast hsha
  refine ⟨?_, ?_, ?_, ?_⟩
  · rw [h2]
    exact hret.symm
  · rw [h2]
  · rw [h2]
  · rw [upsert_store_eq]
    exact writeObject_count_one hash data s.store hnd

/-- Witness for C1 on a fresh vault, a concrete digest function and bytes. -/
theorem spec_c1_idempotent_dedup_witness :
    ((initState.store.map Prod.fst).Nodup) ∧
    ((upsertArtifactVersion bytesToHex 1 "doc.txt" [1, 2] "text/plain" "alice"
        (upsertArtifactVersion bytesToHex 1 "doc.txt" [1, 2] "text/plain" "alice"
          initState).2).1
      = (upsertArtifactVersion bytesToHex 1 "doc.txt" [1, 2] "text/plain" "alice"
          initState).1 ∧
    (upsertArtifactVersion bytesToHex 1 "doc.txt" [1, 2] "text/plain" "alice"
        (upsertArtifactVersion bytesToHex 1 "doc.txt" [1, 2] "text/plain" "alice"
          initState).2).2.versions
      = (upsertArtifactVersion bytesToHex 1 "doc.txt" [1, 2] "text/plain" "alice"
          initState).2.versions ∧
    (upsertArtifactVersion bytesToHex 1 "doc.txt" [1, 2] "text/plain" "alice"
        (upsertArtifactVersion bytesToHex 1 "doc.txt" [1, 2] "text/plain" "alice"
          initState).2).2.store
      = (upsertArtifactVersion bytesToHex 1 "doc.txt" [1, 2] "text/plain" "alice"
          initState).2.store ∧
    ((upsertArtifactVersion bytesToHex 1 "doc.txt" [1, 2] "text/plain" "alice"
        initState).2.store.countP (fun e => e.1 == bytesToHex [1, 2])) = 1) := by
  exact ⟨by decide,
    spec_c1_idempotent_dedup bytesToHex 1 "doc.txt" [1, 2] "text/plain" "alice"
      initState (by decide)⟩

/-! ### Claim C2: monotonic versioning -/

theorem versions_le_of_range {vs : List VersionRow} {k : ℕ}
    (h3 : vs.map (fun v => v.version_int) = List.range' 1 k) :
    ∀ v ∈ vs, v.version_int ≤ k := by
  intro v hv
  have hm : v.version_int ∈ List.range' 1 k := h3 ▸ List.mem_map_of_mem _ hv
  rw [List.mem_range'_1] at hm
  omega

theorem upsert_inv_step (hash : List ℕ → String) (tid : ℕ) (fn : String)
    (data : List ℕ) (mime ub : String) (s : VaultState) (aid k : ℕ) (lastSha : String)
    (hinv : uploadInv tid fn aid k lastSha s) (hne : hash data ≠ lastSha) :
    uploadInv tid fn aid (k + 1) (hash data)
      (upsertArtifactVersion hash tid fn data mime ub s).2 := by
  obtain ⟨h1, h2, h3, h4⟩ := hinv
  have hfa : List.find? (artPred tid (pyLogical fn)) s.artifacts
      = some ⟨aid, tid, pyLogical fn⟩ := by
    rw [h1]
    simp [List.find?, artPred]
  have hfe : vFilter tid aid s.versions = s.versions := by
    unfold vFilter
    rw [List.filter_eq_self]
    intro v hv
    simp [(h2 v hv).1, (h2 v hv).2]
  rw [upsert_eq_found hash tid fn data mime ub s ⟨aid, tid, pyLogical fn⟩ hfa]
  dsimp only
  rw [hfe]
  cases hl : latestVer s.versions with
  | none =>
    have hnil := eq_nil_of_latestVer_none hl
    have hk0 : k = 0 := by
      have := h3
      rw [hnil] at this
      cases k with
      | zero => rfl
      | succ j =>
        rw [List.range'_succ] at this
        exact absurd this (by simp)
    subst hk0
    rw [insertNewVersion_spec tid aid 1 fn (relOf (hash data)) (hash data) data.length mime ub { s with store := (writeObject hash data s.store).2 } (fun v hv => by rw [hfe, hnil] at hv; simp at hv)]
    refine ⟨by dsimp only; rw [h1], ?_, ?_, ?_⟩
    · intro v hv
      dsimp only at hv
      rw [hnil] at hv
      simp only [List.nil_append, List.mem_singleton] at hv
      subst hv
      exact ⟨rfl, rfl⟩
    · dsimp only
      rw [hnil]
      rfl
    · intro w hw
      dsimp only at hw
      rw [hnil] at hw
      simp only [List.nil_append] at hw
      have : some (⟨s.nextVersionId, tid, aid, 1, fn, relOf (hash data), hash data,
          data.length, mime, ub⟩ : VersionRow) = some w := by
        rw [← hw]
        rfl
      injection this with this
      subst this
      exact ⟨rfl, rfl⟩
  | some w =>
    have hwk := (h4 w hl).1
    have hws := (h4 w hl).2
    have hsne : (w.sha256 == hash data) ≠ true := by
      rw [hws]
      simp [Ne.symm hne]
    dsimp only
    rw [if_neg hsne]
    rw [insertNewVersion_spec tid aid (w.version_int + 1) fn (relOf (hash data)) (hash data) data.length mime ub { s with store := (writeObject hash data s.store).2 } (fun v hv => by rw [hfe] at hv; exact Nat.lt_succ_of_le (latestVer_ge hl v hv))]
    have hlast : latestVer (s.versions ++
        [⟨s.nextVersionId, tid, aid, w.version_int + 1, fn, relOf (hash data),
          hash data, data.length, mime, ub⟩]) =
        some ⟨s.nextVersionId, tid, aid, w.version_int + 1, fn, relOf (hash data),
          hash data, data.length, mime, ub⟩ :=
      latestVer_append_gt (fun v hv =>
        Nat.lt_succ_of_le (le_trans (versions_le_of_range h3 v hv) (le_of_eq hwk.symm)))
    refine ⟨by dsimp only; rw [h1], ?_, ?_, ?_⟩
    · intro v hv
      dsimp only at hv
      rcases List.mem_append.mp hv with hv | hv
      · exact h2 v hv
      · simp only [List.mem_singleton] at hv
        subst hv
        exact ⟨rfl, rfl⟩
    · dsimp only
      rw [List.map_append, h3, hwk]
      rw [List.range'_concat]
      simp [Nat.add_comm]
    · intro u hu
      dsimp only at hu
      rw [hlast] at hu
      injection hu with hu
      subst hu
      refine ⟨?_, rfl⟩
      dsimp only
      omega

theorem upsert_first_upload (hash : List ℕ → String) (tid : ℕ) (fn : String)
    (data : List ℕ) (mime ub : String) (s : VaultState)
    (ha : s.artifacts = []) (hv : s.versions = []) :
    uploadInv tid fn s.nextArtifactId 1 (hash data)
      (upsertArtifactVersion hash tid fn data mime ub s).2 := by
  have hfa : List.find? (artPred tid (pyLogical fn)) s.artifacts = none := by
    rw [ha]
    rfl
  rw [upsert_eq_new hash tid fn data mime ub s hfa]
  have hl : latestVer (vFilter tid s.nextArtifactId s.versions) = none := by
    rw [hv]
    rfl
  rw [hl]
  dsimp only
  rw [insertNewVersion_spec tid s.nextArtifactId 1 fn (relOf (hash data)) (hash data) data.length mime ub { s with store := (writeObject hash data s.store).2, artifacts := s.artifacts ++ [⟨s.nextArtifactId, tid, pyLogical fn⟩], nextArtifactId := s.nextArtifactId + 1 } (fun v hvv => by simp [vFilter, hv] at hvv)]
  refine ⟨?_, ?_, ?_, ?_⟩
  · dsimp only
    rw [ha]
    rfl
  · intro v hvv
    dsimp only at hvv
    rw [hv] at hvv
    simp only [List.nil_append, List.mem_singleton] at hvv
    subst hvv
    exact ⟨rfl, rfl⟩
  · dsimp only
    rw [hv]
    rfl
  · intro w hw
    dsimp only at hw
    rw [hv] at hw
    simp only [List.nil_append] at hw
    have : some (⟨s.nextVersionId, tid, s.nextArtifactId, 1, fn, relOf (hash data),
        hash data, data.length, mime, ub⟩ : VersionRow) = some w := by
      rw [← hw]
      rfl
    injection this with this
    subst this
    exact ⟨rfl, rfl⟩

theorem runUploads_inv (hash : List ℕ → String) (tid : ℕ) (fn mime ub : String) :
    ∀ (ds : List (List ℕ)) (s : VaultState) (k : ℕ) (lastSha : String) (aid : ℕ),
      uploadInv tid fn aid k lastSha s →
      List.Chain' (fun a b => a ≠ b) (lastSha :: ds.map hash) →
      ∃ sha', uploadInv tid fn aid (k + ds.length) sha'
        (ds.foldl (fun st d => (upsertArtifactVersion hash tid fn d mime ub st).2) s) := by
  intro ds
  induction ds with
  | nil => intro s k lastSha aid hinv _; exact ⟨lastSha, by simpa using hinv⟩
  | cons d t ih =>
    intro s k lastSha aid hinv hch
    rw [List.map_cons, List.chain'_cons] at hch
    have hstep := upsert_inv_step hash tid fn d mime ub s aid k lastSha hinv
      (fun h => hch.1 h.symm)
    obtain ⟨sha', hfin⟩ := ih (upsertArtifactVersion hash tid fn d mime ub s).2
      (k + 1) (hash d) aid hstep hch.2
    refine ⟨sha', ?_⟩
    have harith : k + 1 + t.length = k + (d :: t).length := by
      simp [List.length_cons]
      omega
    rw [List.foldl_cons]
    rw [← harith]
    exact hfin

/-- C2: a sequence of uploads of the same logical file whose successive
contents have distinct digests produces, inside the (single) artifact created
for that tenant and file, version numbers exactly `1..N` in upload order — no
gaps, no repeats, strictly increasing, `(artifact, version_int)` unique. -/
theorem spec_c2_monotonic_versioning (hash : List ℕ → String) (tid : ℕ)
    (fn mime ub : String) (datas : List (List ℕ))
    (hch : List.Chain' (fun a b => a ≠ b) (datas.map hash)) :
    (runUploads hash tid fn mime ub datas).artifacts
        = (if datas.isEmpty then [] else [⟨1, tid, pyLogical fn⟩]) ∧
    ((vFilter tid 1 (runUploads hash tid fn mime ub datas).versions).map
        (fun v => v.version_int))
      = List.range' 1 datas.length := by
  cases datas with
  | nil => exact ⟨rfl, rfl⟩
  | cons d t =>
    have hbase := upsert_first_upload hash tid fn d mime ub initState rfl rfl
    rw [List.map_cons] at hch
    obtain ⟨sha', h1, h2, h3, _⟩ := runUploads_inv hash tid fn mime ub t
      (upsertArtifactVersion hash tid fn d mime ub initState).2 1 (hash d) 1
      hbase hch
    have hfold : runUploads hash tid fn mime ub (d :: t)
        = t.foldl (fun st d => (upsertArtifactVersion hash tid fn d mime ub st).2)
            (upsertArtifactVersion hash tid fn d mime ub initState).2 := by
      unfold runUploads
      rw [List.foldl_cons]
    constructor
    · rw [hfold, h1]
      rfl
    · rw [hfold]
      have hfe : vFilter tid 1 (t.foldl
          (fun st d => (upsertArtifactVersion hash tid fn d mime ub st).2)
          (upsertArtifactVersion hash tid fn d mime ub initState).2).versions
          = (t.foldl (fun st d => (upsertArtifactVersion hash tid fn d mime ub st).2)
              (upsertArtifactVersion hash tid fn d mime ub initState).2).versions := by
        unfold vFilter
        rw [List.filter_eq_self]
        intro v hv
        simp [(h2 v hv).1, (h2 v hv).2]
      rw [hfe, h3]
      simp [List.length_cons, Nat.add_comm]

/-- Witness for C2: two uploads with distinct digests yield versions [1, 2]. -/
theorem spec_c2_monotonic_versioning_witness :
    List.Chain' (fun a b => a ≠ b) ([[0], [1]].map bytesToHex) ∧
    (runUploads bytesToHex 7 "doc.txt" "text/plain" "alice" [[0], [1]]).artifacts
        = (if ([[0], [1]] : List (List ℕ)).isEmpty then []
           else [⟨1, 7, pyLogical "doc.txt"⟩]) ∧
    ((vFilter 7 1 (runUploads bytesToHex 7 "doc.txt" "text/plain" "alice"
        [[0], [1]]).versions).map (fun v => v.version_int))
      = List.range' 1 ([[0], [1]] : List (List ℕ)).length := by
  have hch : List.Chain' (fun a b => a ≠ b) ([[0], [1]].map bytesToHex) := by
    rw [List.map_cons, List.map_cons, List.map_nil]
    exact List.chain'_cons.mpr ⟨by decide, by simp⟩
  exact ⟨hch,
    spec_c2_monotonic_versioning bytesToHex 7 "doc.txt" "text/plain" "alice"
      [[0], [1]] hch⟩

/-! ### Claim C3: tenant isolation of vault writes -/

theorem loginSuccess_fields (u : AuthUser) (s0 : Session)
    (hrole : canCrossTenant u.role = false) :
    (loginSuccess u s0).auth_user = some u ∧
    (loginSuccess u s0).tenant_id = u.tenant_id := by
  unfold loginSuccess canCrossSession setTenantId
  simp [hrole]

theorem tenantSelector_fixed (p : SelectorStep) (s : Session) (u : AuthUser)
    (t : ℕ) (hu : s.auth_user = some u) (hrole : canCrossTenant u.role = false)
    (htt : s.tenant_id = some t) :
    tenantSelector p s = s := by
  unfold tenantSelector
  have hcs : canCrossSession s = false := by
    unfold canCrossSession
    rw [hu]
    exact hrole
  rw [hcs, htt]
  simp

theorem applySelectors_fixed (steps : List SelectorStep) (s : Session) (u : AuthUser)
    (t : ℕ) (hu : s.auth_user = some u) (hrole : canCrossTenant u.role = false)
    (htt : s.tenant_id = some t) :
    applySelectors steps s = s := by
  induction steps generalizing s with
  | nil => rfl
  | cons p rest ih =>
    unfold applySelectors
    rw [List.foldl_cons]
    rw [tenantSelector_fixed p s u t hu hrole htt]
    exact ih s hu htt

theorem saveInspectionRecord_rows (tid : ℕ) (avid : Option ℕ) (rt : String)
    (f : FindingsSummary) (s : VaultState) :
    (saveInspectionRecord tid avid rt f s).2.inspections
      = s.inspections ++ [⟨s.nextInspectionId, tid, avid, rt,
          f.cui_detected, f.risk_level, f.error⟩] := rfl

theorem attachEvidenceFile_rows (hash : List ℕ → String) (tid insp : ℕ)
    (kind fname : String) (data : List ℕ) (s : VaultState) :
    (attachEvidenceFile hash tid insp kind fname data s).evidence
      = s.evidence ++ [⟨s.nextEvidenceId, tid, insp, kind, fname,
          (writeObject hash data s.store).1.2.1, (writeObject hash data s.store).1.1,
          data.length⟩] := rfl

/-- C3: a non-cross-tenant user's session tenant is forced to their own tenant
at login and cannot be changed by any sequence of selector inputs, so the
tenant id every inspector-page vault write uses is the user's own; and the
vault write operations themselves, run with that tenant, only create rows
carrying it (upsert also only hands back a version row of that tenant). -/
theorem spec_c3_tenant_isolation (u : AuthUser) (t : ℕ) (s0 : Session)
    (steps : List SelectorStep) (hash : List ℕ → String) (vs : VaultState)
    (fn : String) (data : List ℕ) (mime ub : String) (avid : Option ℕ)
    (runType : String) (f : FindingsSummary) (insp : ℕ) (kind efn : String)
    (edata : List ℕ)
    (hrole : canCrossTenant u.role = false) (ht : u.tenant_id = some t) :
    inspectorTid (applySelectors steps (loginSuccess u s0)) = some t ∧
    ((upsertArtifactVersion hash t fn data mime ub vs).2.artifacts.all
        (fun a => decide (a ∈ vs.artifacts) || (a.tenant_id == t))) = true ∧
    ((upsertArtifactVersion hash t fn data mime ub vs).2.versions.all
        (fun v => decide (v ∈ vs.versions) || (v.tenant_id == t))) = true ∧
    ((upsertArtifactVersion hash t fn data mime ub vs).2.versions.any
        (fun w => (w.id == (upsertArtifactVersion hash t fn data mime ub vs).1)
          && (w.tenant_id == t))) = true ∧
    ((saveInspectionRecord t avid runType f vs).2.inspections.all
        (fun i => decide (i ∈ vs.inspections) || (i.tenant_id == t))) = true ∧
    ((attachEvidenceFile hash t insp kind efn edata vs).evidence.all
        (fun e => decide (e ∈ vs.evidence) || (e.tenant_id == t))) = true := by
  obtain ⟨hu, htt⟩ := loginSuccess_fields u s0 hrole
  refine ⟨?_, ?_, ?_, ?_, ?_, ?_⟩
  · unfold inspectorTid
    rw [applySelectors_fixed steps (loginSuccess u s0) u t hu hrole (htt.trans ht),
      htt, ht]
  · rcases upsert_artifacts_cases hash t fn data mime ub vs with h | h <;>
      rw [h] <;> rw [List.all_eq_true] <;> intro a ha
    · simp [ha]
    · rcases List.mem_append.mp ha with ha | ha
      · simp [ha]
      · simp only [List.mem_singleton] at ha
        subst ha
        simp
  · rcases upsert_versions_cases hash t fn data mime ub vs with h | ⟨r, hrt, h⟩ <;>
      rw [h] <;> rw [List.all_eq_true] <;> intro v hv
    · simp [hv]
    · rcases List.mem_append.mp hv with hv | hv
      · simp [hv]
      · simp only [List.mem_singleton] at hv
        subst hv
        simp [hrt]
  · obtain ⟨a, w, -, hlast, -, hret, -⟩ := upsert_post hash t fn data mime ub vs
    rw [List.any_eq_true]
    refine ⟨w, List.mem_of_mem_filter (latestVer_mem hlast), ?_⟩
    have hwt : w.tenant_id = t := by
      have := List.of_mem_filter (latestVer_mem hlast)
      simp only [Bool.and_eq_true, beq_iff_eq] at this
      exact this.1
    simp [hret, hwt]
  · rw [saveInspectionRecord_rows, List.all_eq_true]
    intro i hi
    rcases List.mem_append.mp hi with hi | hi
    · simp [hi]
    · simp only [List.mem_singleton] at hi
      subst hi
      simp
  · rw [attachEvidenceFile_rows, List.all_eq_true]
    intro e he
    rcases List.mem_append.mp he with he | he
    · simp [he]
    · simp only [List.mem_singleton] at he
      subst he
      simp

/-- Witness for C3: an analyst of tenant 1 who supplies foreign tenant ids
through the selector still writes only tenant-1 rows. -/
theorem spec_c3_tenant_isolation_witness :
    canCrossTenant "analyst" = false ∧
    (⟨5, "alice", "analyst", some 1⟩ : AuthUser).tenant_id = some 1 ∧
    inspectorTid (applySelectors [⟨[1, 2], 2, 2⟩, ⟨[1, 2], 2, 1⟩]
        (loginSuccess ⟨5, "alice", "analyst", some 1⟩ ⟨none, some 2⟩)) = some 1 ∧
    ((upsertArtifactVersion bytesToHex 1 "doc.txt" [3] "text/plain" "alice"
        initState).2.versions.all
        (fun v => decide (v ∈ initState.versions) || (v.tenant_id == 1))) = true ∧
    ((saveInspectionRecord 1 none "manual"
        ⟨some false, some "LOW", none⟩ initState).2.inspections.all
        (fun i => decide (i ∈ initState.inspections) || (i.tenant_id == 1))) = true ∧
    ((attachEvidenceFile bytesToHex 1 1 "findings_json" "f.json" [4]
        initState).evidence.all
        (fun e => decide (e ∈ initState.evidence) || (e.tenant_id == 1))) = true := by
  have h := spec_c3_tenant_isolation ⟨5, "alice", "analyst", some 1⟩ 1 ⟨none, some 2⟩
    [⟨[1, 2], 2, 2⟩, ⟨[1, 2], 2, 1⟩] bytesToHex initState "doc.txt" [3] "text/plain"
    "alice" none "manual" ⟨some false, some "LOW", none⟩ 1 "findings_json" "f.json"
    [4] (by decide) (by decide)
  exact ⟨by decide, by decide, h.1, h.2.2.1, h.2.2.2.2.1, h.2.2.2.2.2⟩

/-! ### Claim C8: cross-tenant evidence attachment -/

/-- C8 is contradicted by the source: `attach_evidence_file` performs no check
that the inspection belongs to the caller's tenant. Called for tenant 1 with
inspection 1 — which belongs to tenant 2 — it is not rejected: it records an
evidence row scoped to tenant 1 that references tenant 2's inspection, so the
recorded row is not scoped to the same tenant as the inspection it references. -/
theorem spec_c8_attach_records_cross_tenant :
    (c8State.inspections.map (fun i => (i.id, i.tenant_id))) = [(1, 2)] ∧
    ((attachEvidenceFile bytesToHex 1 1 "findings_json" "findings_1.json" [1, 2]
        c8State).evidence.map (fun e => (e.tenant_id, e.inspection_id)))
      = [(1, 1)] ∧
    (attachEvidenceFile bytesToHex 1 1 "findings_json" "findings_1.json" [1, 2]
        c8State).evidence.length = 1 := by
  exact ⟨rfl, rfl, rfl⟩

/-! ### Claim C10: pbkdf2 hash/verify round trip -/

theorem takeWhile_ne_append {sep : Char} (a rest : List Char)
    (h : ∀ c ∈ a, c ≠ sep) :
    (a ++ sep :: rest).takeWhile (fun c => c ≠ sep) = a := by
  induction a with
  | nil => simp
  | cons c t ih =>
    have hc : c ≠ sep := h c (List.mem_cons_self c t)
    simp only [List.cons_append, List.takeWhile_cons]
    rw [if_pos (by simpa using hc)]
    rw [ih (fun x hx => h x (List.mem_cons_of_mem c hx))]

theorem dropWhile_ne_append {sep : Char} (a rest : List Char)
    (h : ∀ c ∈ a, c ≠ sep) :
    (a ++ sep :: rest).dropWhile (fun c => c ≠ sep) = sep :: rest := by
  induction a with
  | nil => simp
  | cons c t ih =>
    have hc : c ≠ sep := h c (List.mem_cons_self c t)
    simp only [List.cons_append, List.dropWhile_cons]
    rw [if_pos (by simpa using hc)]
    exact ih (fun x hx => h x (List.mem_cons_of_mem c hx))

theorem splitLimit_step (sep : Char) (n : ℕ) (a rest : List Char)
    (h : ∀ c ∈ a, c ≠ sep) :
    splitLimit sep (n + 1) (a ++ sep :: rest) = a :: splitLimit sep n rest := by
  conv_lhs => unfold splitLimit
  rw [dropWhile_ne_append a rest h, takeWhile_ne_append a rest h]

theorem hexChar_ne_dollar (n : ℕ) : hexChar n ≠ '$' := by
  unfold hexChar
  split <;> decide

theorem bytesToHex_no_dollar (bs : List ℕ) :
    ∀ c ∈ (bytesToHex bs).toList, c ≠ '$' := by
  induction bs with
  | nil => intro c hc; simp [bytesToHex, String.toList] at hc
  | cons b t ih =>
    intro c hc
    simp only [bytesToHex, String.toList] at hc ih
    simp only [List.foldr_cons, List.mem_cons] at hc
    rcases hc with h1 | h1 | h1
    · exact h1 ▸ hexChar_ne_dollar _
    · exact h1 ▸ hexChar_ne_dollar _
    · exact ih c h1

/-- C10: verifying a freshly produced hash of the same password succeeds, for
every password, every derived-key function and every salt the generator can
produce (`secrets.token_hex` emits hex characters only, hence no `'$'`). -/
theorem spec_c10_pbkdf2_roundtrip (dkf : String → String → ℕ → List ℕ)
    (password salt : String) (hsalt : ∀ c ∈ salt.toList, c ≠ '$') :
    pbkdf2Verify dkf password (pbkdf2Hash dkf password salt 200000) = true := by
  have hsplit : splitDollar3 (pbkdf2Hash dkf password salt 200000)
      = ["pbkdf2_sha256", toString (200000 : ℕ), salt,
         bytesToHex (dkf password salt 200000)] := by
    unfold splitDollar3 pbkdf2Hash
    have hlist : ("pbkdf2_sha256" ++ "$" ++ toString (200000 : ℕ) ++ "$" ++ salt ++ "$"
        ++ bytesToHex (dkf password salt 200000)).toList
        = "pbkdf2_sha256".toList ++ '$' :: ((toString (200000 : ℕ)).toList
            ++ '$' :: (salt.toList
            ++ '$' :: (bytesToHex (dkf password salt 200000)).toList)) := by
      simp [String.toList, String.data_append]
    rw [hlist]
    rw [splitLimit_step '$' 2 _ _ (by decide)]
    rw [splitLimit_step '$' 1 _ _ (by decide)]
    rw [splitLimit_step '$' 0 _ _ hsalt]
    unfold splitLimit
    rfl
  unfold pbkdf2Verify
  rw [hsplit]
  simp only
  rw [if_neg (by simp)]
  have hnat : pyToNat? (toString (200000 : ℕ)) = some 200000 := by decide
  rw [hnat]
  simp

/-- Witness for C10 at a concrete password, salt and derived-key function. -/
theorem spec_c10_pbkdf2_roundtrip_witness :
    (∀ c ∈ ("00ff" : String).toList, c ≠ '$') ∧
    pbkdf2Verify (fun _ _ _ => [0, 255]) "hunter2"
        (pbkdf2Hash (fun _ _ _ => [0, 255]) "hunter2" "00ff" 200000) = true := by
  exact ⟨by decide,
    spec_c10_pbkdf2_roundtrip (fun _ _ _ => [0, 255]) "hunter2" "00ff" (by decide)⟩

end CuiInspector
